import Mathlib

/-!
# Coupled online linear-regression trainer: verification of the spec claims

This file gives a shallow embedding of the coupled stochastic-gradient-descent
trainer of the notebook `cython/Wrapping a C library with Ctypes.ipynb`:
the gradient function `coupled_gradient` and the per-sample SGD loop that
drives it.  Real numbers of the source are modelled as rationals (`ℚ`); numpy
shape errors are modelled by an `Option` result.  The theorems at the end of
the file settle the specification claims about this code.
-/

/-- Dot product of two coordinate lists (`x.dot(w_seg)` in the source). -/
def dot (a b : List ℚ) : ℚ :=
  (List.zipWith (fun s t => s * t) a b).sum

/-- A labelled training sample: feature vector, label and task identifier.
The task identifier is an arbitrary integer, as in the source, where `c[i]`
is a plain Python integer. -/
structure Sample where
  features : List ℚ
  label : ℚ
  taskId : ℤ
deriving DecidableEq

instance : Inhabited Sample := ⟨⟨[], 0, 0⟩⟩

/-- The data-model invariant of the spec: the task identifier is 0 or 1 and
the feature vector has length `K`. -/
def ValidSample (K : ℕ) (s : Sample) : Prop :=
  (s.taskId = 0 ∨ s.taskId = 1) ∧ s.features.length = K

instance (K : ℕ) (s : Sample) : Decidable (ValidSample K s) := by
  unfold ValidSample; infer_instance

/-- Embedding of `coupled_gradient(x, c, w, y, reg, coupling_reg)` from the
notebook.  `k = len(w)`, `k/2` is Python-2 floor division.  The branch on
`c == 0` selects the active weight segment; every `c ≠ 0` takes the `else`
branch.  The zero-initialised numpy arrays with a slice assignment become
zero-padded concatenations.  numpy raises a shape error (modelled as `none`)
exactly when the dot product or one of the element-wise operations sees
mismatched lengths: `len(x) ≠ len(w_seg)`, or `k` odd (then
`w[:k/2] - w[k/2:]` mismatches). -/
def coupledGradient (x : List ℚ) (c : ℤ) (w : List ℚ) (y reg coupling_reg : ℚ) :
    Option (List ℚ × ℚ) :=
  let k := w.length
  let half := k / 2
  let w_seg := if c = 0 then w.take half else w.drop half
  if x.length = w_seg.length ∧ half + half = k then
    let pred := dot x w_seg
    let coupling :=
      (List.zipWith (fun s t => s - t) (w.take half) (w.drop half)).map
        (fun d => d * (1 - 2 * (c : ℚ)))
    let err := pred - y
    let error_grad :=
      if c = 0 then x.map (fun t => err * t) ++ List.replicate (k - half) 0
      else List.replicate half 0 ++ x.map (fun t => err * t)
    let reg_term :=
      if c = 0 then w_seg ++ List.replicate (k - half) 0
      else List.replicate half 0 ++ w_seg
    let coupling_term :=
      if c = 0 then coupling ++ List.replicate (k - half) 0
      else List.replicate half 0 ++ coupling
    let grad :=
      List.zipWith (fun s t => s + t)
        (List.zipWith (fun s t => s + t) error_grad (reg_term.map (fun t => reg * t)))
        (coupling_term.map (fun t => coupling_reg * t))
    some (grad, err)
  else
    none

/-! ## Spec-side description of the gradient

The following definitions are written from the words of the spec (§4.1), to be
compared with `coupledGradient`.  The sign `s` is a parameter: the spec fixes
`s = +1` for task 0 and `s = −1` for task 1; the source computes `1 - 2*c`. -/

/-- Spec: `prediction = dot(x, w_active)`; `error = prediction − y`, where
`w_active` is segment `c` of `w` (`w0` if `c = 0`, else `w1`). -/
def specError (K : ℕ) (x w : List ℚ) (y : ℚ) (c : ℤ) : ℚ :=
  dot x (if c = 0 then w.take K else w.drop K) - y

/-- Spec: `error_gradient` is zero everywhere except the active segment,
where it equals `error * x`. -/
def errorGradient (K : ℕ) (x w : List ℚ) (y : ℚ) (c : ℤ) : List ℚ :=
  let err := specError K x w y c
  if c = 0 then x.map (fun t => err * t) ++ List.replicate K 0
  else List.replicate K 0 ++ x.map (fun t => err * t)

/-- Spec: `l2_gradient` is zero everywhere except the active segment, where
it equals `reg * w_active`. -/
def l2Gradient (K : ℕ) (w : List ℚ) (reg : ℚ) (c : ℤ) : List ℚ :=
  if c = 0 then (w.take K).map (fun t => reg * t) ++ List.replicate K 0
  else List.replicate K 0 ++ (w.drop K).map (fun t => reg * t)

/-- Spec: `coupling_gradient` is zero everywhere except the active segment,
where it equals `coupling_reg * (w0 − w1) * s`. -/
def couplingGradient (K : ℕ) (w : List ℚ) (coupling_reg s : ℚ) (c : ℤ) : List ℚ :=
  let diff := (List.zipWith (fun a b => a - b) (w.take K) (w.drop K)).map
    (fun d => coupling_reg * d * s)
  if c = 0 then diff ++ List.replicate K 0 else List.replicate K 0 ++ diff

/-- Spec: `gradient = error_gradient + l2_gradient + coupling_gradient`
(elementwise sum). -/
def specGradient (K : ℕ) (x w : List ℚ) (y reg coupling_reg s : ℚ) (c : ℤ) : List ℚ :=
  List.zipWith (fun a b => a + b)
    (List.zipWith (fun a b => a + b) (errorGradient K x w y c) (l2Gradient K w reg c))
    (couplingGradient K w coupling_reg s c)

/-! ## The SGD loop -/

/-- The mutable state of the coupled SGD loop: the weight vector `w`, the
running error total `cum_err`, and the Python variables `grad` and `err`,
which retain their values from the previous iteration when
`coupled_gradient` raises. -/
structure LoopState where
  w : List ℚ
  cum_err : ℚ
  grad : List ℚ
  err : ℚ
deriving DecidableEq

/-- One iteration of the inner loop, for the sample at index `i`:
```
try:
    grad, err = coupled_gradient(X[:,i], c[i], w, y[i], reg, coupling_reg)
except:
    print i; print X[:,i]; print c[i]
w += -learning_rate * grad
cum_err += err**2
```
Returns the new state and the log entries printed by the `except` branch
(the offending index, its features and its task id).  When the gradient
computation fails, the caught exception leaves `grad` and `err` at their
previous (stale) values, which the update then uses. -/
def sgdStep (learning_rate reg coupling_reg : ℚ) (st : LoopState) (i : ℕ)
    (s : Sample) : LoopState × List (ℕ × List ℚ × ℤ) :=
  match coupledGradient s.features s.taskId st.w s.label reg coupling_reg with
  | some (g, e) =>
      (⟨List.zipWith (fun a b => a + -learning_rate * b) st.w g,
        st.cum_err + e ^ 2, g, e⟩, [])
  | none =>
      (⟨List.zipWith (fun a b => a + -learning_rate * b) st.w st.grad,
        st.cum_err + st.err ^ 2, st.grad, st.err⟩,
       [(i, s.features, s.taskId)])

/-- The hyperparameters of a training run (§3 of the spec).  The source
hard-codes `learning_rate = 0.0005`, `reg = 0.05`, `coupling_reg = 0.1`,
`num_iter = 100` and a reporting interval of 10; they are parameters here. -/
structure Hyper where
  learning_rate : ℚ
  reg : ℚ
  coupling_reg : ℚ
  num_epochs : ℕ
  report_interval : ℕ
  permute : Bool

/-- One epoch of the coupled loop: reset `cum_err` to 0, then run `sgdStep`
on each index of `order` in turn (`for i in idx`). -/
def runEpoch (learning_rate reg coupling_reg : ℚ) (samples : List Sample)
    (order : List ℕ) (st : LoopState) : LoopState :=
  order.foldl
    (fun q i => (sgdStep learning_rate reg coupling_reg q i (samples.getD i default)).1)
    { st with cum_err := 0 }

/-- The iteration order of epoch `e`: a permutation drawn from the random
stream `orders` when `permute` is set (`idx = np.random.permutation(len(y))`),
the input order `0, 1, …` otherwise. -/
def orderFor (hp : Hyper) (samples : List Sample) (orders : ℕ → List ℕ)
    (e : ℕ) : List ℕ :=
  if hp.permute then orders e else List.range samples.length

/-- The epoch loop: runs `n` more epochs starting at epoch index `e`,
collecting `cum_err` into the loss list whenever `e % report_interval = 0`
(the source's `if (iter % 10) == 0: print …`). -/
def trainAux (hp : Hyper) (samples : List Sample) (orders : ℕ → List ℕ) :
    ℕ → ℕ → LoopState → LoopState × List ℚ
  | 0, _, st => (st, [])
  | n + 1, e, st =>
    let st' := runEpoch hp.learning_rate hp.reg hp.coupling_reg samples
      (orderFor hp samples orders e) st
    let r := trainAux hp samples orders n (e + 1) st'
    (r.1, (if e % hp.report_interval = 0 then [st'.cum_err] else []) ++ r.2)

/-- `train(samples, initial_weights, hyperparameters)`: runs
`num_epochs` epochs of the coupled SGD loop from the given initial weights
and returns the final weights and the reported epoch losses.  `orders`
models the stream of random permutations consumed when `permute` is set.
The loop variables `grad` and `err` start out unset (modelled `[]`, `0`). -/
def train (hp : Hyper) (samples : List Sample) (w : List ℚ)
    (orders : ℕ → List ℕ) : List ℚ × List ℚ :=
  let r := trainAux hp samples orders hp.num_epochs 0 ⟨w, 0, [], 0⟩
  (r.1.w, r.2)

/-- The loop state after the first `e` epochs of `train`. -/
def stateAfter (hp : Hyper) (samples : List Sample) (orders : ℕ → List ℕ)
    (w : List ℚ) : ℕ → LoopState
  | 0 => ⟨w, 0, [], 0⟩
  | e + 1 => runEpoch hp.learning_rate hp.reg hp.coupling_reg samples
      (orderFor hp samples orders e) (stateAfter hp samples orders w e)

/-- The sequence of `err` values used by one epoch (one per sample
processed, stale values included). -/
def epochErrs (learning_rate reg coupling_reg : ℚ) (samples : List Sample) :
    List ℕ → LoopState → List ℚ
  | [], _ => []
  | i :: rest, st =>
    let st' := (sgdStep learning_rate reg coupling_reg st i (samples.getD i default)).1
    st'.err :: epochErrs learning_rate reg coupling_reg samples rest st'

/-- The value held by the active segment of the spec gradient: the sum of the
error term `err * x`, the L2 term `reg * w_active`, and the coupling term
`coupling_reg * (w0 − w1) * s`. -/
def activeSeg (K : ℕ) (x w : List ℚ) (y reg creg s : ℚ) (c : ℤ) : List ℚ :=
  List.zipWith (fun a b => a + b)
    (List.zipWith (fun a b => a + b)
      (x.map (fun t => specError K x w y c * t))
      ((if c = 0 then w.take K else w.drop K).map (fun t => reg * t)))
    ((List.zipWith (fun a b => a - b) (w.take K) (w.drop K)).map (fun d => creg * d * s))

/-- Auxiliary: the loop state after running `n` epochs starting at epoch
index `e` (same recursion shape as `trainAux`, state component only). -/
def stateFrom (hp : Hyper) (samples : List Sample) (orders : ℕ → List ℕ) :
    ℕ → ℕ → LoopState → LoopState
  | _, 0, st => st
  | e, n + 1, st => stateFrom hp samples orders (e + 1) n
      (runEpoch hp.learning_rate hp.reg hp.coupling_reg samples
        (orderFor hp samples orders e) st)

/-- Auxiliary: the weight update of one successful loop iteration, as a
function of the weights alone (used to project the loop onto its weight
component when every sample is valid). -/
def pureStep (lr reg creg : ℚ) (w : List ℚ) (s : Sample) : List ℚ :=
  match coupledGradient s.features s.taskId w s.label reg creg with
  | some (g, _) => List.zipWith (fun a b => a + -lr * b) w g
  | none => w

/-! ## List helper lemmas -/

lemma take_append_left {α : Type} (l r : List α) (n : ℕ) (h : l.length = n) :
    (l ++ r).take n = l := by
  subst h; exact List.take_left l r

lemma drop_append_left {α : Type} (l r : List α) (n : ℕ) (h : l.length = n) :
    (l ++ r).drop n = r := by
  subst h; exact List.drop_left l r

lemma zipWith_replicate_both {α : Type} (f : α → α → α) (a b : α) (n : ℕ) :
    List.zipWith f (List.replicate n a) (List.replicate n b) =
      List.replicate n (f a b) := by
  induction n with
  | zero => rfl
  | succ n ih => simp [List.replicate_succ, ih]

lemma getD_replicate_zero (n i : ℕ) : (List.replicate n (0 : ℚ)).getD i 0 = 0 := by
  induction n generalizing i with
  | zero => simp
  | succ n ih => cases i <;> simp [List.replicate_succ, ih]

lemma zipWith_update_replicate_zero (lr : ℚ) (l : List ℚ) (n : ℕ)
    (h : l.length = n) :
    List.zipWith (fun a b => a + -lr * b) l (List.replicate n 0) = l := by
  induction l generalizing n with
  | nil => simp
  | cons a l ih =>
    cases n with
    | zero => simp at h
    | succ n =>
      rw [List.replicate_succ, List.zipWith_cons_cons, ih n (by simpa using h)]
      norm_num

lemma zipWith_add_replicate_zero (l : List ℚ) (n : ℕ) (h : l.length = n) :
    List.zipWith (fun a b => a + b) l (List.replicate n 0) = l := by
  induction l generalizing n with
  | nil => simp
  | cons a l ih =>
    cases n with
    | zero => simp at h
    | succ n =>
      rw [List.replicate_succ, List.zipWith_cons_cons, ih n (by simpa using h)]
      norm_num

lemma map_range_getD {α : Type} [Inhabited α] (l : List α) :
    (List.range l.length).map (fun i => l.getD i default) = l := by
  refine List.ext_getElem (by simp) (fun n h1 h2 => ?_)
  simp only [List.getElem_map, List.getElem_range]
  exact List.getD_eq_getElem l default h2

/-! ## The gradient function agrees with the spec formula -/

/-- The central refinement lemma: on a well-shaped input (`len(x) = K`,
`len(w) = 2K`), `coupled_gradient` succeeds and returns exactly the spec's
gradient decomposition with sign factor `1 - 2c`, together with the spec's
prediction error.  (For `c ∈ {0,1}` the factor `1 - 2c` is the spec's
`s = ±1`.) -/
lemma coupledGradient_eq_spec (K : ℕ) (x w : List ℚ) (y reg creg : ℚ) (c : ℤ)
    (hx : x.length = K) (hw : w.length = 2 * K) :
    coupledGradient x c w y reg creg =
      some (specGradient K x w y reg creg (1 - 2 * (c : ℚ)) c,
            specError K x w y c) := by
  obtain ⟨u, v, hu, hv, rfl⟩ : ∃ u v, u.length = K ∧ v.length = K ∧ w = u ++ v := by
    refine ⟨w.take K, w.drop K, ?_, ?_, (List.take_append_drop K w).symm⟩
    · rw [List.length_take, hw]; omega
    · rw [List.length_drop, hw]; omega
  have hlen : (u ++ v).length = 2 * K := by simp [hu, hv]; omega
  have hhalf : (u ++ v).length / 2 = K := by rw [hlen]; omega
  have htake : (u ++ v).take K = u := take_append_left u v K hu
  have hdrop : (u ++ v).drop K = v := drop_append_left u v K hu
  have hrest : (u ++ v).length - (u ++ v).length / 2 = K := by rw [hlen]; omega
  have hcomp : ((fun t => creg * t) ∘ fun d => d * (1 - 2 * (c : ℚ)))
      = fun d => creg * d * (1 - 2 * (c : ℚ)) := by
    funext d; simp [Function.comp]; ring
  rcases eq_or_ne c 0 with hc | hc
  · subst hc
    simp only [coupledGradient, specGradient, specError, errorGradient, l2Gradient,
      couplingGradient, hhalf, hrest, htake, hdrop]
    norm_num [hx, hu, hv]
  · simp only [coupledGradient, specGradient, specError, errorGradient, l2Gradient,
      couplingGradient, hhalf, hrest, htake, hdrop, if_neg hc]
    norm_num [hx, hu, hv]
    rw [hcomp]

lemma specGradient_length (K : ℕ) (x w : List ℚ) (y reg creg s : ℚ) (c : ℤ)
    (hx : x.length = K) (hw : w.length = 2 * K) :
    (specGradient K x w y reg creg s c).length = 2 * K := by
  rcases eq_or_ne c 0 with hc | hc <;>
    simp [specGradient, errorGradient, l2Gradient, couplingGradient, hc, hx, hw] <;>
    omega

lemma coupledGradient_none_of_bad_features {K : ℕ} {x w : List ℚ}
    (y reg creg : ℚ) (c : ℤ) (hw : w.length = 2 * K) (hx : x.length ≠ K) :
    coupledGradient x c w y reg creg = none := by
  simp only [coupledGradient]
  rw [if_neg]
  rintro ⟨h1, -⟩
  apply hx
  rcases eq_or_ne c 0 with hc | hc
  · rw [if_pos hc, List.length_take, hw] at h1
    omega
  · rw [if_neg hc, List.length_drop, hw] at h1
    omega

lemma coupledGradient_some_length {K : ℕ} {x w : List ℚ} {y reg creg : ℚ} {c : ℤ}
    {p : List ℚ × ℚ} (hw : w.length = 2 * K)
    (h : coupledGradient x c w y reg creg = some p) : x.length = K := by
  by_contra hx
  rw [coupledGradient_none_of_bad_features y reg creg c hw hx] at h
  exact absurd h (by simp)

lemma activeSeg_length (K : ℕ) (x w : List ℚ) (y reg creg s : ℚ) (c : ℤ)
    (hx : x.length = K) (hw : w.length = 2 * K) :
    (activeSeg K x w y reg creg s c).length = K := by
  rcases eq_or_ne c 0 with hc | hc <;>
    simp [activeSeg, hc, hx, hw] <;> omega

/-- The spec gradient is the active segment value padded with `K` zeros on
the side of the inactive segment. -/
lemma specGradient_split (K : ℕ) (x w : List ℚ) (y reg creg s : ℚ) (c : ℤ)
    (hx : x.length = K) (hw : w.length = 2 * K) :
    specGradient K x w y reg creg s c =
      if c = 0 then activeSeg K x w y reg creg s c ++ List.replicate K 0
      else List.replicate K 0 ++ activeSeg K x w y reg creg s c := by
  have hA : (x.map (fun t => specError K x w y c * t)).length = K := by
    rw [List.length_map, hx]
  have hB0 : ((w.take K).map (fun t => reg * t)).length = K := by
    rw [List.length_map, List.length_take, hw]; omega
  have hB1 : ((w.drop K).map (fun t => reg * t)).length = K := by
    rw [List.length_map, List.length_drop, hw]; omega
  have hC : ((List.zipWith (fun a b => a - b) (w.take K) (w.drop K)).map
      (fun d => creg * d * s)).length = K := by
    rw [List.length_map, List.length_zipWith, List.length_take, List.length_drop, hw]
    omega
  have hR : (List.replicate K (0:ℚ)).length = K := List.length_replicate K 0
  rcases eq_or_ne c 0 with hc | hc
  · simp only [specGradient, errorGradient, l2Gradient, couplingGradient, activeSeg,
      if_pos hc]
    rw [List.zipWith_append _ _ _ _ _ (hA.trans hB0.symm),
        List.zipWith_append _ _ _ _ _
          (by rw [List.length_zipWith, hA, hB0, hC]; omega),
        zipWith_replicate_both, zipWith_replicate_both]
    norm_num
  · simp only [specGradient, errorGradient, l2Gradient, couplingGradient, activeSeg,
      if_neg hc]
    rw [List.zipWith_append _ _ _ _ _ (hR.trans hR.symm),
        List.zipWith_append _ _ _ _ _
          (by rw [List.length_zipWith, hR]; omega),
        zipWith_replicate_both, zipWith_replicate_both]
    norm_num

/-- **C1** (confirmed).  For a sample with task id `c ∈ {0,1}`, features of
length `K`, a weight vector of length `2K` and nonnegative `reg` and
`coupling_reg`, the gradient computer returns the spec's error
`dot(x, w_active) − y` and the elementwise sum of the error gradient, the L2
gradient and the coupling gradient with sign `s = +1` for task 0 and
`s = −1` for task 1, each zero outside the active segment. -/
theorem c1_gradient_decomposition (K : ℕ) (x w : List ℚ) (y reg creg : ℚ) (c : ℤ)
    (hc : c = 0 ∨ c = 1) (hx : x.length = K) (hw : w.length = 2 * K)
    (hreg : 0 ≤ reg) (hcreg : 0 ≤ creg) :
    coupledGradient x c w y reg creg =
      some (specGradient K x w y reg creg (if c = 0 then 1 else -1) c,
            specError K x w y c) := by
  have h := coupledGradient_eq_spec K x w y reg creg c hx hw
  rcases hc with hc | hc <;> subst hc
  · simpa using h
  · norm_num at h ⊢
    exact h

/-- Witness for C1 at a concrete input. -/
theorem c1_witness :
    coupledGradient [2] 0 [3, 4] 1 1 1 =
      some (specGradient 1 [2] [3, 4] 1 1 1 (if (0:ℤ) = 0 then 1 else -1) 0,
            specError 1 [2] [3, 4] 1 0) :=
  c1_gradient_decomposition 1 [2] [3, 4] 1 1 1 0 (Or.inl rfl) rfl rfl
    (by norm_num) (by norm_num)

/-- **C2** (confirmed).  The concrete scenario of §8: `K = 2`, a single
sample `features = [1,0]`, `task_id = 0`, `label = 5`, zero initial weights,
`reg = coupling_reg = 0`, `learning_rate = 0.1`: prediction `0`, error `−5`,
gradient `[−5,0,0,0]`, and one SGD update gives weights `[0.5,0,0,0]`. -/
theorem c2_concrete_scenario :
    dot [1, 0] [0, 0] = 0 ∧
    coupledGradient [1, 0] 0 [0, 0, 0, 0] 5 0 0 = some ([-5, 0, 0, 0], -5) ∧
    (train ⟨1/10, 0, 0, 1, 1, false⟩ [⟨[1, 0], 5, 0⟩] [0, 0, 0, 0]
        (fun _ => [])).1 = [1/2, 0, 0, 0] := by
  refine ⟨by simp [dot], by simp [coupledGradient, dot], ?_⟩
  simp [train, trainAux, runEpoch, orderFor, sgdStep, coupledGradient, dot,
    List.range_succ]
  norm_num

/-- **C3** (confirmed).  For a sample with task id `t ∈ {0,1}` and a weight
vector of length `2K`, any gradient the gradient computer returns is zero at
every index outside segment `t`: on `[K,2K)` when `t = 0` and on `[0,K)`
when `t = 1`. -/
theorem c3_segment_sparsity (K : ℕ) (x w : List ℚ) (y reg creg : ℚ) (t : ℤ)
    (g : List ℚ) (e : ℚ) (ht : t = 0 ∨ t = 1) (hw : w.length = 2 * K)
    (h : coupledGradient x t w y reg creg = some (g, e)) :
    ∀ j : ℕ, (t = 0 → K ≤ j → j < 2 * K → g.getD j 0 = 0) ∧
             (t = 1 → j < K → g.getD j 0 = 0) := by
  have hx : x.length = K := coupledGradient_some_length hw h
  have h2 := (coupledGradient_eq_spec K x w y reg creg t hx hw).symm.trans h
  simp only [Option.some.injEq, Prod.mk.injEq] at h2
  obtain ⟨hg, -⟩ := h2
  subst hg
  intro j
  rw [specGradient_split K x w y reg creg _ t hx hw]
  constructor
  · intro hc hKj hj2
    rw [if_pos hc,
        List.getD_append_right _ _ _ _
          (by rw [activeSeg_length K x w y reg creg _ t hx hw]; exact hKj),
        getD_replicate_zero]
  · intro hc hjK
    rw [if_neg (by rw [hc]; norm_num),
        List.getD_append _ _ _ _ (by simp [hjK]),
        getD_replicate_zero]

/-- Witness for C3 at a concrete input (task 0, `K = 1`, index 1 is in the
inactive segment). -/
theorem c3_witness : ([9, 0] : List ℚ).getD 1 0 = 0 := by
  have h := c3_segment_sparsity 1 [3] [1, 2] 0 1 1 0 [9, 0] 3 (Or.inl rfl) rfl
    (by simp [coupledGradient, dot]; norm_num)
  exact (h 1).1 rfl (by norm_num) (by norm_num)

/-- **C4** (code bug).  The claim says the gradient computer fails with
`InvalidSampleError` exactly when `task_id ∉ {0,1}` or `len(features) ≠ K`,
and that the error propagates out of `train`.  The source has no such check:
at the failing input `task_id = 2` with well-shaped features, the code
raises nothing and returns a segment-1 gradient whose coupling term is
scaled by `1 − 2·2 = −3` (here `coupling_reg · (w0 − w1) · (−3) = −9`). -/
theorem c4_no_invalid_sample_error :
    coupledGradient [0] 2 [5, 2] 0 0 1 = some ([0, -9], 0) := by
  simp [coupledGradient, dot]
  norm_num

/-- **C10** (confirmed).  For any task identifier `c ≠ 0` the gradient
computer raises no error and computes exactly the task-1 spec gradient,
except that the coupling sign `s = −1` is replaced by `1 − 2c`. -/
theorem c10_nonzero_task_as_task1 (K : ℕ) (x w : List ℚ) (y reg creg : ℚ)
    (c : ℤ) (hc : c ≠ 0) (hx : x.length = K) (hw : w.length = 2 * K) :
    coupledGradient x c w y reg creg =
      some (specGradient K x w y reg creg (1 - 2 * (c : ℚ)) 1,
            specError K x w y 1) := by
  have h := coupledGradient_eq_spec K x w y reg creg c hx hw
  rw [h]
  have h1 : specGradient K x w y reg creg (1 - 2 * (c : ℚ)) c
      = specGradient K x w y reg creg (1 - 2 * (c : ℚ)) 1 := by
    simp [specGradient, errorGradient, l2Gradient, couplingGradient, specError,
      if_neg hc]
  have h2 : specError K x w y c = specError K x w y 1 := by
    simp [specError, if_neg hc]
  rw [h1, h2]

/-- Witness for C10 at `c = 2`: the coupling contribution on segment 1 is
`coupling_reg * (w0 − w1) * (1 − 2·2) = 1 · 3 · (−3) = −9`. -/
theorem c10_witness :
    coupledGradient [0] 2 [5, 2] 3 0 1 =
      some (specGradient 1 [0] [5, 2] 3 0 1 (1 - 2 * ((2:ℤ) : ℚ)) 1,
            specError 1 [0] [5, 2] 3 1) ∧
    specGradient 1 [0] [5, 2] 3 0 1 (1 - 2 * ((2:ℤ) : ℚ)) 1 = [0, -9] := by
  refine ⟨c10_nonzero_task_as_task1 1 [0] [5, 2] 3 0 1 2 (by norm_num) rfl rfl, ?_⟩
  simp [specGradient, errorGradient, l2Gradient, couplingGradient, specError, dot]
  norm_num

/-! ## Loop behaviour -/

/-- **C5** (confirmed).  When the gradient computation for a sample raises,
the per-sample loop catches the exception, logs the offending index and its
inputs, and still applies the weight update and the error accumulation with
the stale `grad` and `err` left from the previous iteration, instead of
aborting the epoch. -/
theorem c5_stale_gradient_reuse (learning_rate reg coupling_reg : ℚ)
    (st : LoopState) (i : ℕ) (s : Sample)
    (h : coupledGradient s.features s.taskId st.w s.label reg coupling_reg = none) :
    sgdStep learning_rate reg coupling_reg st i s =
      (⟨List.zipWith (fun a b => a + -learning_rate * b) st.w st.grad,
        st.cum_err + st.err ^ 2, st.grad, st.err⟩,
       [(i, s.features, s.taskId)]) := by
  simp only [sgdStep, h]

/-- Witness for C5: a sample whose feature length (3) differs from `K = 1`
makes the gradient fail; the loop reuses the stale gradient `[10, 20]` and
stale error `7`, and logs index 4 with the sample's inputs. -/
theorem c5_witness :
    sgdStep 1 0 0 ⟨[1, 2], 3, [10, 20], 7⟩ 4 ⟨[1, 2, 3], 0, 0⟩ =
      (⟨List.zipWith (fun a b => a + -(1:ℚ) * b) [1, 2] [10, 20],
        3 + 7 ^ 2, [10, 20], 7⟩,
       [(4, [1, 2, 3], 0)]) :=
  c5_stale_gradient_reuse 1 0 0 ⟨[1, 2], 3, [10, 20], 7⟩ 4 ⟨[1, 2, 3], 0, 0⟩
    (by simp [coupledGradient])

lemma trainAux_orders_irrel (hp : Hyper) (samples : List Sample)
    (o1 o2 : ℕ → List ℕ) (hperm : hp.permute = false) :
    ∀ (n e : ℕ) (st : LoopState),
      trainAux hp samples o1 n e st = trainAux hp samples o2 n e st := by
  intro n
  induction n with
  | zero => intro e st; rfl
  | succ n ih =>
    intro e st
    simp only [trainAux, orderFor, hperm, Bool.false_eq_true, if_false, ih]

/-- **C7** (confirmed).  With `permute = false` the samples are visited in
input order; the result of `train` does not depend on the random permutation
stream at all, so two runs with identical samples, initial weights and
hyperparameters produce identical final weights and epoch losses. -/
theorem c7_determinism (hp : Hyper) (samples : List Sample) (w : List ℚ)
    (o1 o2 : ℕ → List ℕ) (hperm : hp.permute = false) :
    train hp samples w o1 = train hp samples w o2 := by
  simp only [train]
  rw [trainAux_orders_irrel hp samples o1 o2 hperm]

/-- Witness for C7: two runs differing only in the random stream. -/
theorem c7_witness :
    train ⟨1, 0, 0, 1, 1, false⟩ [⟨[1], 2, 0⟩] [0, 0] (fun _ => [0]) =
      train ⟨1, 0, 0, 1, 1, false⟩ [⟨[1], 2, 0⟩] [0, 0] (fun _ => [0, 0]) :=
  c7_determinism ⟨1, 0, 0, 1, 1, false⟩ [⟨[1], 2, 0⟩] [0, 0] _ _ rfl

/-- **C8** (confirmed).  `train` with `num_epochs = 0` performs no weight
update: it returns the initial weights and an empty loss sequence. -/
theorem c8_zero_epochs (hp : Hyper) (samples : List Sample) (w : List ℚ)
    (orders : ℕ → List ℕ) (h : hp.num_epochs = 0) :
    train hp samples w orders = (w, []) := by
  simp [train, h, trainAux]

/-- Witness for C8. -/
theorem c8_witness :
    train ⟨1, 1, 1, 0, 1, true⟩ [] [2] (fun _ => []) = ([2], []) :=
  c8_zero_epochs ⟨1, 1, 1, 0, 1, true⟩ [] [2] (fun _ => []) rfl

lemma trainAux_fst (hp : Hyper) (samples : List Sample) (orders : ℕ → List ℕ) :
    ∀ (n e : ℕ) (st : LoopState),
      (trainAux hp samples orders n e st).1 = stateFrom hp samples orders e n st := by
  intro n
  induction n with
  | zero => intro e st; rfl
  | succ n ih => intro e st; simp only [trainAux, stateFrom, ih]

lemma stateFrom_succ (hp : Hyper) (samples : List Sample) (orders : ℕ → List ℕ) :
    ∀ (n e : ℕ) (st : LoopState),
      stateFrom hp samples orders e (n + 1) st =
        runEpoch hp.learning_rate hp.reg hp.coupling_reg samples
          (orderFor hp samples orders (e + n)) (stateFrom hp samples orders e n st) := by
  intro n
  induction n with
  | zero => intro e st; simp [stateFrom]
  | succ n ih =>
    intro e st
    have he : e + 1 + n = e + (n + 1) := by omega
    calc stateFrom hp samples orders e (n + 1 + 1) st
        = stateFrom hp samples orders (e + 1) (n + 1)
            (runEpoch hp.learning_rate hp.reg hp.coupling_reg samples
              (orderFor hp samples orders e) st) := rfl
      _ = _ := by rw [ih, he]; rfl

lemma stateAfter_eq_stateFrom (hp : Hyper) (samples : List Sample)
    (orders : ℕ → List ℕ) (w : List ℚ) :
    ∀ n, stateAfter hp samples orders w n =
      stateFrom hp samples orders 0 n ⟨w, 0, [], 0⟩ := by
  intro n
  induction n with
  | zero => rfl
  | succ n ih =>
    rw [stateFrom_succ]
    simp only [stateAfter, ih, Nat.zero_add]

lemma trainAux_losses (hp : Hyper) (samples : List Sample) (orders : ℕ → List ℕ) :
    ∀ (n e : ℕ) (st : LoopState),
      (trainAux hp samples orders n e st).2 =
        (List.range n).filterMap
          (fun j => if (e + j) % hp.report_interval = 0
            then some ((stateFrom hp samples orders e (j + 1) st).cum_err)
            else none) := by
  intro n
  induction n with
  | zero => intro e st; rfl
  | succ n ih =>
    intro e st
    simp only [trainAux, ih, List.range_succ_eq_map, List.filterMap_cons,
      List.filterMap_map]
    have hfun : ∀ j : ℕ,
        ((fun j => if (e + j) % hp.report_interval = 0
            then some ((stateFrom hp samples orders e (j + 1) st).cum_err)
            else none) ∘ Nat.succ) j =
        (fun j => if (e + 1 + j) % hp.report_interval = 0
            then some ((stateFrom hp samples orders (e + 1) (j + 1)
              (runEpoch hp.learning_rate hp.reg hp.coupling_reg samples
                (orderFor hp samples orders e) st)).cum_err)
            else none) j := by
      intro j
      have hj : e + (j + 1) = e + 1 + j := by omega
      simp only [Function.comp, Nat.succ_eq_add_one, hj]
      rfl
    rw [funext hfun]
    have h0 : stateFrom hp samples orders e 1 st =
        runEpoch hp.learning_rate hp.reg hp.coupling_reg samples
          (orderFor hp samples orders e) st := rfl
    rcases Nat.decEq (e % hp.report_interval) 0 with he | he
    · simp [if_neg he, h0]
    · simp [if_pos he, h0]

lemma sgdStep_cum_err (lr reg creg : ℚ) (st : LoopState) (i : ℕ) (s : Sample) :
    ((sgdStep lr reg creg st i s).1).cum_err
      = st.cum_err + ((sgdStep lr reg creg st i s).1).err ^ 2 := by
  rcases hcg : coupledGradient s.features s.taskId st.w s.label reg creg
    with - | ⟨g, e⟩ <;> simp [sgdStep, hcg]

lemma foldl_step_cum_err (lr reg creg : ℚ) (samples : List Sample) :
    ∀ (order : List ℕ) (st : LoopState),
      (order.foldl (fun q i => (sgdStep lr reg creg q i (samples.getD i default)).1)
        st).cum_err
        = st.cum_err + ((epochErrs lr reg creg samples order st).map
            (fun t => t ^ 2)).sum := by
  intro order
  induction order with
  | nil => intro st; simp [epochErrs]
  | cons i rest ih =>
    intro st
    simp only [List.foldl_cons, epochErrs, List.map_cons, List.sum_cons]
    rw [ih, sgdStep_cum_err lr reg creg st i (samples.getD i default)]
    ring

lemma runEpoch_cum_err (lr reg creg : ℚ) (samples : List Sample)
    (order : List ℕ) (st : LoopState) :
    (runEpoch lr reg creg samples order st).cum_err
      = ((epochErrs lr reg creg samples order { st with cum_err := 0 }).map
          (fun t => t ^ 2)).sum := by
  unfold runEpoch
  rw [foldl_step_cum_err]
  simp

/-- **C9** (confirmed).  The loss accounting of the optimizer: the final
weights are those after exactly `num_epochs` epochs (no early stopping);
the reported losses are the end-of-epoch `cum_err` values of exactly the
epochs `e < num_epochs` with `e % report_interval = 0`; and within one
epoch `cum_err` restarts from zero and accumulates the square of the error
of each processed sample. -/
theorem c9_epoch_accounting (hp : Hyper) (samples : List Sample)
    (orders : ℕ → List ℕ) (w : List ℚ) :
    (train hp samples w orders).1 = (stateAfter hp samples orders w hp.num_epochs).w ∧
    (train hp samples w orders).2 =
      (List.range hp.num_epochs).filterMap
        (fun e => if e % hp.report_interval = 0
          then some ((stateAfter hp samples orders w (e + 1)).cum_err) else none) ∧
    ∀ (lr reg creg : ℚ) (ss : List Sample) (order : List ℕ) (st : LoopState),
      (runEpoch lr reg creg ss order st).cum_err =
        ((epochErrs lr reg creg ss order { st with cum_err := 0 }).map
          (fun t => t ^ 2)).sum := by
  refine ⟨?_, ?_, fun lr reg creg ss order st => runEpoch_cum_err lr reg creg ss order st⟩
  · simp only [train, trainAux_fst, stateAfter_eq_stateFrom]
  · simp only [train, trainAux_losses, stateAfter_eq_stateFrom, Nat.zero_add]

/-! ## Decoupling (claim C6) -/

lemma pureStep_eq (lr reg creg : ℚ) (K : ℕ) (w : List ℚ) (s : Sample)
    (hsf : s.features.length = K) (hw : w.length = 2 * K) :
    pureStep lr reg creg w s =
      List.zipWith (fun a b => a + -lr * b) w
        (specGradient K s.features w s.label reg creg
          (1 - 2 * (s.taskId : ℚ)) s.taskId) := by
  unfold pureStep
  rw [coupledGradient_eq_spec K s.features w s.label reg creg s.taskId hsf hw]

lemma pureStep_length (lr reg creg : ℚ) (K : ℕ) (w : List ℚ) (s : Sample)
    (hsf : s.features.length = K) (hw : w.length = 2 * K) :
    (pureStep lr reg creg w s).length = 2 * K := by
  rw [pureStep_eq lr reg creg K w s hsf hw, List.length_zipWith,
    specGradient_length K s.features w s.label reg creg _ s.taskId hsf hw, hw]
  omega

lemma sgdStep_w_eq_pureStep (lr reg creg : ℚ) (K : ℕ) (st : LoopState) (i : ℕ)
    (s : Sample) (hsf : s.features.length = K) (hw : st.w.length = 2 * K) :
    ((sgdStep lr reg creg st i s).1).w = pureStep lr reg creg st.w s := by
  unfold sgdStep pureStep
  rw [coupledGradient_eq_spec K s.features st.w s.label reg creg s.taskId hsf hw]

lemma foldl_step_w (lr reg creg : ℚ) (K : ℕ) (samples : List Sample)
    (hval : ∀ s ∈ samples, ValidSample K s) :
    ∀ (order : List ℕ), (∀ i ∈ order, i < samples.length) →
      ∀ (st : LoopState), st.w.length = 2 * K →
      (order.foldl (fun q i => (sgdStep lr reg creg q i (samples.getD i default)).1)
        st).w
        = (order.map (fun i => samples.getD i default)).foldl
            (pureStep lr reg creg) st.w := by
  intro order
  induction order with
  | nil => intro _ st _; rfl
  | cons i rest ih =>
    intro hmem st hw
    have hi : i < samples.length := hmem i (by simp)
    have hsi : samples.getD i default ∈ samples := by
      rw [List.getD_eq_getElem samples default hi]
      exact List.getElem_mem hi
    have hfs : (samples.getD i default).features.length = K := (hval _ hsi).2
    have hwstep : ((sgdStep lr reg creg st i (samples.getD i default)).1).w
        = pureStep lr reg creg st.w (samples.getD i default) :=
      sgdStep_w_eq_pureStep lr reg creg K st i _ hfs hw
    have hlen : ((sgdStep lr reg creg st i (samples.getD i default)).1).w.length
        = 2 * K := by
      rw [hwstep]
      exact pureStep_length lr reg creg K st.w _ hfs hw
    simp only [List.foldl_cons, List.map_cons]
    rw [ih (fun j hj => hmem j (List.mem_cons_of_mem i hj)) _ hlen, hwstep]

lemma runEpoch_w (lr reg creg : ℚ) (K : ℕ) (samples : List Sample)
    (hval : ∀ s ∈ samples, ValidSample K s) (st : LoopState)
    (hw : st.w.length = 2 * K) :
    (runEpoch lr reg creg samples (List.range samples.length) st).w
      = samples.foldl (pureStep lr reg creg) st.w := by
  unfold runEpoch
  rw [foldl_step_w lr reg creg K samples hval (List.range samples.length)
      (fun i hi => List.mem_range.mp hi) { st with cum_err := 0 } hw,
    map_range_getD]

lemma foldl_pureStep_length (lr reg creg : ℚ) (K : ℕ) :
    ∀ (samples : List Sample), (∀ s ∈ samples, ValidSample K s) →
      ∀ w : List ℚ, w.length = 2 * K →
      (samples.foldl (pureStep lr reg creg) w).length = 2 * K := by
  intro samples
  induction samples with
  | nil => intro _ w hw; exact hw
  | cons s rest ih =>
    intro hval w hw
    simp only [List.foldl_cons]
    exact ih (fun t ht => hval t (List.mem_cons_of_mem s ht)) _
      (pureStep_length lr reg creg K w s (hval s (by simp)).2 hw)

lemma activeSeg_creg_zero (K : ℕ) (x w : List ℚ) (y reg s : ℚ) (c : ℤ)
    (hx : x.length = K) (hw : w.length = 2 * K) :
    activeSeg K x w y reg 0 s c =
      List.zipWith (fun a b => a + b)
        (x.map (fun t => specError K x w y c * t))
        ((if c = 0 then w.take K else w.drop K).map (fun t => reg * t)) := by
  unfold activeSeg
  have hlen : (List.zipWith (fun a b => a - b) (w.take K) (w.drop K)).length = K := by
    rw [List.length_zipWith, List.length_take, List.length_drop, hw]
    omega
  have hmap : (List.zipWith (fun a b => a - b) (w.take K) (w.drop K)).map
      (fun d => (0:ℚ) * d * s) = List.replicate K 0 := by
    rw [show (fun d => (0:ℚ) * d * s) = fun _ : ℚ => (0:ℚ) from by funext d; ring]
    rw [List.map_const', hlen]
  rw [hmap]
  apply zipWith_add_replicate_zero
  rw [List.length_zipWith, List.length_map, hx]
  rcases eq_or_ne c 0 with hc | hc
  · rw [if_pos hc, List.length_map, List.length_take, hw]; omega
  · rw [if_neg hc, List.length_map, List.length_drop, hw]; omega

lemma pureStep_take_zero (lr reg : ℚ) (K : ℕ) (w : List ℚ) (s : Sample)
    (hs0 : s.taskId = 0) (hsf : s.features.length = K) (hw : w.length = 2 * K) :
    (pureStep lr reg 0 w s).take K =
      List.zipWith (fun a b => a + -lr * b) (w.take K)
        (List.zipWith (fun a b => a + b)
          (s.features.map (fun t => (dot s.features (w.take K) - s.label) * t))
          ((w.take K).map (fun t => reg * t))) := by
  rw [pureStep_eq lr reg 0 K w s hsf hw, List.take_zipWith,
    specGradient_split K s.features w s.label reg 0 _ s.taskId hsf hw, if_pos hs0,
    take_append_left _ _ K
      (activeSeg_length K s.features w s.label reg 0 _ s.taskId hsf hw),
    activeSeg_creg_zero K s.features w s.label reg _ s.taskId hsf hw, if_pos hs0]
  simp [specError, hs0]

lemma pureStep_take_one (lr reg : ℚ) (K : ℕ) (w : List ℚ) (s : Sample)
    (hs1 : s.taskId = 1) (hsf : s.features.length = K) (hw : w.length = 2 * K) :
    (pureStep lr reg 0 w s).take K = w.take K := by
  rw [pureStep_eq lr reg 0 K w s hsf hw, List.take_zipWith,
    specGradient_split K s.features w s.label reg 0 _ s.taskId hsf hw,
    if_neg (by rw [hs1]; norm_num),
    take_append_left _ _ K (by simp)]
  exact zipWith_update_replicate_zero lr (w.take K) K
    (by rw [List.length_take, hw]; omega)

lemma foldl_decoupled (lr reg : ℚ) (K : ℕ) :
    ∀ (samples : List Sample) (w w' : List ℚ),
      (∀ s ∈ samples, ValidSample K s) →
      w.length = 2 * K → w'.length = 2 * K → w.take K = w'.take K →
      (samples.foldl (pureStep lr reg 0) w).take K =
        ((samples.filter (fun s => s.taskId == 0)).foldl (pureStep lr reg 0) w').take K := by
  intro samples
  induction samples with
  | nil => intro w w' _ _ _ heq; simpa using heq
  | cons s rest ih =>
    intro w w' hval hw hw' heq
    have hsv := hval s (by simp)
    rcases hsv.1 with hs0 | hs1
    · rw [List.filter_cons_of_pos (by simp [hs0])]
      simp only [List.foldl_cons]
      exact ih (pureStep lr reg 0 w s) (pureStep lr reg 0 w' s)
        (fun t ht => hval t (List.mem_cons_of_mem s ht))
        (pureStep_length lr reg 0 K w s hsv.2 hw)
        (pureStep_length lr reg 0 K w' s hsv.2 hw')
        (by rw [pureStep_take_zero lr reg K w s hs0 hsv.2 hw,
                pureStep_take_zero lr reg K w' s hs0 hsv.2 hw', heq])
    · rw [List.filter_cons_of_neg (by simp [hs1])]
      simp only [List.foldl_cons]
      exact ih (pureStep lr reg 0 w s) w'
        (fun t ht => hval t (List.mem_cons_of_mem s ht))
        (pureStep_length lr reg 0 K w s hsv.2 hw) hw'
        ((pureStep_take_one lr reg K w s hs1 hsv.2 hw).trans heq)

/-- **C6** (confirmed).  With `coupling_reg = 0` and a fixed iteration order
(`permute = false`), training on only the task-0 samples produces the same
final `w0` segment as training on the full interleaved dataset: every
task-1 sample's gradient is zero on segment 0 when the coupling coefficient
is zero. -/
theorem c6_decoupling (K : ℕ) (hp : Hyper) (samples : List Sample) (w : List ℚ)
    (orders : ℕ → List ℕ) (hcreg : hp.coupling_reg = 0)
    (hperm : hp.permute = false) (hval : ∀ s ∈ samples, ValidSample K s)
    (hw : w.length = 2 * K) :
    (train hp samples w orders).1.take K =
      (train hp (samples.filter (fun s => s.taskId == 0)) w orders).1.take K := by
  have hvalf : ∀ s ∈ samples.filter (fun s => s.taskId == 0), ValidSample K s :=
    fun s hs => hval s (List.mem_of_mem_filter hs)
  have key : ∀ n,
      (stateFrom hp samples orders 0 n ⟨w, 0, [], 0⟩).w.take K =
        (stateFrom hp (samples.filter (fun s => s.taskId == 0)) orders 0 n
          ⟨w, 0, [], 0⟩).w.take K ∧
      (stateFrom hp samples orders 0 n ⟨w, 0, [], 0⟩).w.length = 2 * K ∧
      (stateFrom hp (samples.filter (fun s => s.taskId == 0)) orders 0 n
        ⟨w, 0, [], 0⟩).w.length = 2 * K := by
    intro n
    induction n with
    | zero => exact ⟨rfl, hw, hw⟩
    | succ n ih =>
      obtain ⟨iheq, ihl, ihl'⟩ := ih
      rw [stateFrom_succ, stateFrom_succ]
      simp only [orderFor, hperm, Bool.false_eq_true, if_false]
      rw [runEpoch_w hp.learning_rate hp.reg hp.coupling_reg K samples hval _ ihl,
        runEpoch_w hp.learning_rate hp.reg hp.coupling_reg K _ hvalf _ ihl']
      rw [hcreg]
      refine ⟨foldl_decoupled hp.learning_rate hp.reg K samples _ _ hval ihl ihl' iheq,
        ?_, ?_⟩
      · exact foldl_pureStep_length hp.learning_rate hp.reg 0 K samples hval _ ihl
      · exact foldl_pureStep_length hp.learning_rate hp.reg 0 K _ hvalf _ ihl'
  simp only [train, trainAux_fst]
  exact (key hp.num_epochs).1

/-- Witness for C6: one task-0 and one task-1 sample, `K = 1`. -/
theorem c6_witness :
    (train ⟨1, 0, 0, 1, 1, false⟩ [⟨[1], 1, 0⟩, ⟨[1], 2, 1⟩] [0, 0]
        (fun _ => [])).1.take 1 =
      (train ⟨1, 0, 0, 1, 1, false⟩
        ([⟨[1], 1, 0⟩, ⟨[1], 2, 1⟩].filter (fun s => s.taskId == 0)) [0, 0]
        (fun _ => [])).1.take 1 :=
  c6_decoupling 1 ⟨1, 0, 0, 1, 1, false⟩ [⟨[1], 1, 0⟩, ⟨[1], 2, 1⟩] [0, 0]
    (fun _ => []) rfl rfl (by decide) rfl
